import Mathlib

/-!
Shallow embedding of the TDnet XBRL financial analyzer
(`③_xbrl_financial_analyzer.py`): the bundle locator
(`find_xbrl_instance_in_zip`), the period classifier (`classify_period`),
the inline-XBRL numeric decode and fact extraction (`_parse_ixbrl`),
the comparison builder (`build_financial_summary`), the significant-change
detector (`analyze_significant_changes`) and the profit-margin computation
(`calculate_profit_margins`).

Modelling choices, stated once:
* Python strings are lists of characters (`Str`); `str.lower` is modelled
  on ASCII letters (the only case-bearing characters these inputs carry).
* Python floats are modelled as exact rationals; every concrete value the
  analysed claims mention is exactly representable in binary64, so the
  rational model agrees with the float semantics on them.
* `None` and pandas missing values (`NaN`) are both modelled as
  `Option.none`; `x is not None` / `notna` become `Option.isSome`.
* Python's stable `list.sort` is modelled by the first-of-the-maxima fold
  `selectLargest`; pandas `sort_values(ascending=False)` is modelled as the
  reversal of a stable ascending sort, which is how pandas `nargsort`
  implements descending order (ascending argsort, then `indexer[::-1]`).
-/

abbrev Str := List Char

/-- Python `str.lower`, restricted to ASCII letters. -/
def asciiLower (c : Char) : Char :=
  if 'A' ≤ c ∧ c ≤ 'Z' then Char.ofNat (c.toNat + 32) else c

def lowerS (s : Str) : Str := s.map asciiLower

/-- Python `pat in s` (substring test): `pat` is a prefix of some suffix of `s`. -/
def hasSub : Str → Str → Bool
  | [], pat => pat.isEmpty
  | c :: t, pat => pat.isPrefixOf (c :: t) || hasSub t pat

/-- Python `s.startswith(pat)`. -/
def startsWithS (s pat : Str) : Bool := pat.isPrefixOf s

/-- Python `s.endswith(pat)`. -/
def endsWithS (s pat : Str) : Bool := pat.isSuffixOf s

/-! ## Section 2 of the source: the bundle locator `find_xbrl_instance_in_zip` -/

/-- One archive member: its name and its byte size (`zf.getinfo(name).file_size`). -/
structure ZipEntry where
  name : Str
  size : Nat
deriving DecidableEq

/-- `lower.endswith('/')`: directory entries are skipped. -/
def isDirEntry (e : ZipEntry) : Bool := endsWithS (lowerS e.name) ['/']

/-- `lower.endswith('-ixbrl.htm') or lower.endswith('-ixbrl.html')`. -/
def isInlineDoc (e : ZipEntry) : Bool :=
  endsWithS (lowerS e.name) ("-ixbrl.htm".data) ||
    endsWithS (lowerS e.name) ("-ixbrl.html".data)

/-- The loop branch appending to `ixbrl_summary`: an inline document whose
lowered name does not contain `"attachment"` (that case is tested first)
but does contain `"summary"`. -/
def inSummaryCat (e : ZipEntry) : Bool :=
  !isDirEntry e && isInlineDoc e &&
    !hasSub (lowerS e.name) ("attachment".data) &&
    hasSub (lowerS e.name) ("summary".data)

/-- The loop branches appending to `ixbrl_attachment`: an inline document
whose lowered name contains `"attachment"`, or contains neither marker
(the `else` branch). -/
def inAttachmentCat (e : ZipEntry) : Bool :=
  !isDirEntry e && isInlineDoc e &&
    (hasSub (lowerS e.name) ("attachment".data) ||
      !hasSub (lowerS e.name) ("summary".data))

/-- The loop branch appending to `xbrl_files`: not inline, name ends in `.xbrl`. -/
def inXbrlCat (e : ZipEntry) : Bool :=
  !isDirEntry e && !isInlineDoc e && endsWithS (lowerS e.name) (".xbrl".data)

/-- The `ixbrl_summary` list built by the scan loop (the loop only appends,
so it is the order-preserving filter by the branch condition). -/
def summaryList (es : List ZipEntry) : List ZipEntry := es.filter inSummaryCat

def attachmentList (es : List ZipEntry) : List ZipEntry := es.filter inAttachmentCat

def xbrlList (es : List ZipEntry) : List ZipEntry := es.filter inXbrlCat

/-- `lst.sort(key=lambda x: -x[1]); lst[0]`: Python's sort is stable, so the
selected entry is the first entry of maximal size. -/
def selectLargest : List ZipEntry → Option ZipEntry
  | [] => none
  | e :: es => some (es.foldl (fun b x => if b.size < x.size then x else b) e)

/-- `find_xbrl_instance_in_zip`: prefer the summary category, then the
attachment category, then plain `.xbrl` files; inside a category pick
the largest (first wins on ties).  Returns `none` for `(None, None)`. -/
def find_xbrl_instance_in_zip (es : List ZipEntry) : Option ZipEntry :=
  match selectLargest (summaryList es) with
  | some r => some r
  | none =>
    match selectLargest (attachmentList es) with
    | some r => some r
    | none => selectLargest (xbrlList es)

/-! ## `classify_period` -/

/-- `classify_period(context_ref, contexts)`.  The `contexts` argument is
accepted but never read by the source function: classification is purely
textual on the lowered id.  Return values are the source's Japanese role
strings; the final fallback returns the original id unchanged. -/
def classify_period (context_ref : Str) (contexts : List (Str × Str)) : Str :=
  let cr := lowerS context_ref
  if hasSub cr ("forecast".data) || hasSub cr ("nextaccumulated".data) then
    "予想".data
  else if startsWithS cr ("prior".data) || hasSub cr ("prioryear".data) ||
      hasSub cr ("prior1year".data) || hasSub cr ("prioraccumulated".data) then
    if hasSub cr ("instant".data) then "前期末".data else "前期".data
  else if hasSub cr ("priorquarter".data) || hasSub cr ("prior1quarter".data) then
    "前四半期".data
  else if startsWithS cr ("current".data) || hasSub cr ("currentyear".data) ||
      hasSub cr ("currentaccumulated".data) then
    if hasSub cr ("instant".data) then "当期末".data else "当期".data
  else if hasSub cr ("prior".data) then
    if hasSub cr ("instant".data) then "前期末".data else "前期".data
  else if hasSub cr ("current".data) then
    if hasSub cr ("instant".data) then "当期末".data else "当期".data
  else
    context_ref

/-! ## The inline-XBRL numeric decode (`_parse_ixbrl`, value parsing block) -/

/-- Unicode decimal digit value, covering the ASCII digits and the
full-width digits `０`–`９` (Python's `float`/`int` accept any Unicode
decimal digit). -/
def digitVal? (c : Char) : Option ℕ :=
  if c = '0' ∨ c = '０' then some 0
  else if c = '1' ∨ c = '１' then some 1
  else if c = '2' ∨ c = '２' then some 2
  else if c = '3' ∨ c = '３' then some 3
  else if c = '4' ∨ c = '４' then some 4
  else if c = '5' ∨ c = '５' then some 5
  else if c = '6' ∨ c = '６' then some 6
  else if c = '7' ∨ c = '７' then some 7
  else if c = '8' ∨ c = '８' then some 8
  else if c = '9' ∨ c = '９' then some 9
  else none

/-- Normalisation of a full-width digit to its ASCII counterpart; every
other character is left unchanged. -/
def fwNorm (c : Char) : Char :=
  if c = '０' then '0' else if c = '１' then '1' else if c = '２' then '2'
  else if c = '３' then '3' else if c = '４' then '4' else if c = '５' then '5'
  else if c = '６' then '6' else if c = '７' then '7' else if c = '８' then '8'
  else if c = '９' then '9' else c

/-- `text.replace(",", "").replace("，", "").replace(" ", "").replace("　", "")`. -/
def stripSeps (s : Str) : Str :=
  s.filter (fun c => !(c = ',' || c = '，' || c = ' ' || c = '　'))

/-- `clean.replace("△", "-").replace("▲", "-")`. -/
def triToMinus (s : Str) : Str :=
  s.map (fun c => if c = '△' || c = '▲' then '-' else c)

/-- `if clean.startswith("(") and clean.endswith(")"): clean = "-" + clean[1:-1]`. -/
def parenToMinus (s : Str) : Str :=
  if s.head? = some '(' ∧ s.getLast? = some ')' then '-' :: (s.drop 1).dropLast else s

/-- The whole cleaning pipeline applied to a fact's text before `float()`. -/
def cleanText (s : Str) : Str := parenToMinus (triToMinus (stripSeps s))

/-- The placeholder strings `("-", "－", "―", "—", "")` whose facts are skipped. -/
def dashSet : List Str := [['-'], ['－'], ['―'], ['—'], []]

/-- The claim's "equivalent half-width, separator-free text": drop the
thousands separators and spaces and replace each full-width digit by its
ASCII counterpart. -/
def toHalfNoSep (s : Str) : Str := (stripSeps s).map fwNorm

def digitsVal (l : Str) : ℕ := l.foldl (fun a c => a * 10 + (digitVal? c).getD 0) 0

def allDigits (l : Str) : Bool := l.all (fun c => (digitVal? c).isSome)

/-- Python `float` on the fragment of its grammar this program can feed it
after cleaning: an optional ASCII sign, then decimal digits (either width)
with at most one decimal point and at least one digit.  Exact rational
result. -/
def pyFloatUnsigned (s : Str) : Option ℚ :=
  let ip := s.takeWhile (fun c => (digitVal? c).isSome)
  let rest := s.drop ip.length
  if rest.isEmpty then (if ip.isEmpty then none else some (digitsVal ip))
  else if rest.head? = some '.' then
    (if allDigits rest.tail ∧ ¬(ip.isEmpty ∧ rest.tail.isEmpty) then
      some ((digitsVal ip : ℚ) + (digitsVal rest.tail : ℚ) / (10 : ℚ) ^ rest.tail.length)
    else none)
  else none

def pyFloat (s : Str) : Option ℚ :=
  if s.head? = some '-' then (pyFloatUnsigned s.tail).map (fun q => -q)
  else if s.head? = some '+' then pyFloatUnsigned s.tail
  else pyFloatUnsigned s

/-- Python `int` on the scale attribute: optional ASCII sign and decimal
digits. -/
def pyInt (s : Str) : Option ℤ :=
  if s.head? = some '-' then
    (if allDigits s.tail ∧ ¬s.tail.isEmpty then some (-(digitsVal s.tail : ℤ)) else none)
  else if s.head? = some '+' then
    (if allDigits s.tail ∧ ¬s.tail.isEmpty then some (digitsVal s.tail : ℤ) else none)
  else if allDigits s ∧ ¬s.isEmpty then some (digitsVal s : ℤ) else none

def pow10 (sc : ℤ) : ℚ :=
  if 0 ≤ sc then (10 : ℚ) ^ sc.toNat else 1 / (10 : ℚ) ^ (-sc).toNat

/-- Result of the numeric decode block: the fact is dropped (`skip`,
placeholder dash or empty remainder — the `continue`), kept with an
absent value (`failed`, the `except ... : pass` after `float` raised),
or kept with the decoded value. -/
inductive NumDecode where
  | skip
  | failed
  | val (q : ℚ)
deriving DecidableEq

/-- The `ix:nonfraction` value decode: clean the text, skip placeholder
dashes, parse as float, force the sign negative under `sign="-"`, then
apply a non-zero `scale` as a power of ten (an unparsable scale is
ignored). -/
def decodeNumeric (text sign scale : Str) : NumDecode :=
  let clean := cleanText text
  if clean ∈ dashSet then .skip
  else
    match pyFloat clean with
    | none => .failed
    | some v =>
      let v1 := if sign = "-".data then -|v| else v
      match pyInt scale with
      | some sc => if sc ≠ 0 then .val (v1 * pow10 sc) else .val v1
      | none => .val v1

/-! ## Fact extraction (`_parse_ixbrl`, per-element loop) -/

/-- One scanned document element, with its already-lowercased tag string
and the attributes the loop reads (the HTML parser lower-cases attribute
names; `scale` defaults to `"0"` when absent). -/
structure IXElem where
  tag : Str
  nameAttr : Str
  contextref : Str
  text : Str
  sign : Str
  scale : Str
  unitref : Str
  decimals : Str
deriving DecidableEq

/-- One extracted fact (the dict appended to `results`). -/
structure FactRec where
  element : Str
  label_ja : Str
  ns : Str
  context_ref : Str
  period_type : Str
  value : Option ℚ
  value_raw : Str
  unit_ref : Str
  decimals : Str
deriving DecidableEq

/-- `name_attr.split(":", 1)` when a colon is present, else an empty
namespace prefix and the whole name. -/
def splitOnColon (s : Str) : Str × Str :=
  let pre := s.takeWhile (fun c => c ≠ ':')
  if pre.length = s.length then ([], s) else (pre, s.drop (pre.length + 1))

/-- The body of the `_parse_ixbrl` element loop: `none` models `continue`
(tag not a fact carrier, missing name or contextref, empty text, or a
placeholder-dash numeric text).  The two vocabulary tables
(`TSE_ELEMENT_MAP`, `XBRL_LABEL_MAP`) are static configuration data and
are passed as lookup functions; their contents are irrelevant to the
claims. -/
def processElem (tseMap lblMap : Str → Option Str) (contexts : List (Str × Str))
    (el : IXElem) : Option FactRec :=
  if ¬(el.tag = "ix:nonfraction".data ∨ el.tag = "ix:nonnumeric".data) then none
  else if el.nameAttr = [] then none
  else if el.contextref = [] then none
  else if el.text = [] then none
  else
    let p := splitOnColon el.nameAttr
    let valueRes : Option (Option ℚ) :=
      if el.tag = "ix:nonfraction".data then
        match decodeNumeric el.text el.sign el.scale with
        | .skip => none
        | .failed => some none
        | .val q => some (some q)
      else some none
    match valueRes with
    | none => none
    | some v =>
      let mapped := (tseMap p.2).getD p.2
      let label := (lblMap mapped).getD ((lblMap p.2).getD [])
      some ⟨mapped, label, p.1, el.contextref, classify_period el.contextref contexts,
        v, el.text, el.unitref, el.decimals⟩

/-- `_parse_ixbrl` restricted to its per-element fact loop: every element
is processed independently and a skipped element never aborts the scan. -/
def parse_ixbrl (tseMap lblMap : Str → Option Str) (contexts : List (Str × Str))
    (els : List IXElem) : List FactRec :=
  els.filterMap (processElem tseMap lblMap contexts)

/-! ## The comparison builder `build_financial_summary` -/

/-- One financial-summary row (要素名 / 勘定科目 / 当期 / 前期 / 増減額 / 増減率). -/
structure SummaryRow where
  element : Str
  label : Str
  current : Option ℚ
  prior : Option ℚ
  change : Option ℚ
  change_rate : Option ℚ
deriving DecidableEq

/-- `pt in ("当期", "当期末", "当四半期")`. -/
def currentFamily (pt : Str) : Bool :=
  pt = "当期".data || pt = "当期末".data || pt = "当四半期".data

/-- `pt in ("前期", "前期末", "前四半期")`. -/
def priorFamily (pt : Str) : Bool :=
  pt = "前期".data || pt = "前期末".data || pt = "前四半期".data

/-- `numeric_df["element"].unique()`: element names in first-occurrence order. -/
def uniqueAux : List Str → List Str → List Str
  | [], _ => []
  | e :: rest, seen =>
    if e ∈ seen then uniqueAux rest seen else e :: uniqueAux rest (e :: seen)

def uniqueElems (l : List Str) : List Str := uniqueAux l []

/-- The per-element body of the `build_financial_summary` loop: the first
fact in document order with a current-family role supplies 当期, the first
with a prior-family role supplies 前期; a row is emitted only when at
least one was found, and 増減額/増減率 are computed only when both are
present and the prior value is non-zero. -/
def mkSummaryRow (lblMap : Str → Option Str) (numeric : List FactRec) (e : Str) :
    Option SummaryRow :=
  let group := numeric.filter (fun f => f.element = e)
  let label := (lblMap e).getD e
  let current := (group.find? (fun f => currentFamily f.period_type)).bind (·.value)
  let prior := (group.find? (fun f => priorFamily f.period_type)).bind (·.value)
  match current, prior with
  | some c, some p =>
    if p ≠ 0 then some ⟨e, label, current, prior, some (c - p), some ((c - p) / |p|)⟩
    else some ⟨e, label, current, prior, none, none⟩
  | some _, none => some ⟨e, label, current, prior, none, none⟩
  | none, some _ => some ⟨e, label, current, prior, none, none⟩
  | none, none => none

/-- `build_financial_summary`: keep the facts with a decoded numeric value,
group them by element in first-occurrence order, and emit one row per
element that has a current or a prior value. -/
def build_financial_summary (lblMap : Str → Option Str) (facts : List FactRec) :
    List SummaryRow :=
  let numeric := facts.filter (fun f => f.value.isSome)
  (uniqueElems (numeric.map (·.element))).filterMap (mkSummaryRow lblMap numeric)

/-! ## The significant-change detector `analyze_significant_changes` -/

/-- The sort key `abs` applied to the 増減率 column (only ever used on rows
whose rate is present). -/
def absRate (r : SummaryRow) : ℚ := |r.change_rate.getD 0|

/-- Stable insertion into an ascending-by-`absRate` list: the new element
goes before the first element whose key is not smaller. -/
def insertAsc (x : SummaryRow) : List SummaryRow → List SummaryRow
  | [] => [x]
  | y :: ys => if absRate y < absRate x then y :: insertAsc x ys else x :: y :: ys

/-- Stable ascending sort by `absRate` (insertion sort). -/
def sortAscAbs : List SummaryRow → List SummaryRow
  | [] => []
  | x :: xs => insertAsc x (sortAscAbs xs)

/-- `analyze_significant_changes`: keep rows with a present 増減率 whose
absolute value is at least the threshold, then
`sort_values("増減率", ascending=False, key=abs)`.  pandas implements a
descending sort as the reversal of an ascending argsort (`nargsort`
computes the ascending permutation and applies `[::-1]`), so the model is
the reversal of a stable ascending sort. -/
def analyze_significant_changes (rows : List SummaryRow) (threshold : ℚ) :
    List SummaryRow :=
  let sig := (rows.filter (fun r => r.change_rate.isSome)).filter
    (fun r => threshold ≤ absRate r)
  (sortAscAbs sig).reverse

/-! ## The margin computation `calculate_profit_margins` -/

/-- The revenue anchor search order `["NetSales", "Revenue", "OperatingRevenue1"]`. -/
def anchorOrder : List Str :=
  ["NetSales".data, "Revenue".data, "OperatingRevenue1".data]

/-- `row.iloc[0]["当期"] is not None`, read off the summary frame:
`build_financial_summary` returns `pd.DataFrame(summary_rows)`, and as soon
as any row carries a numeric 当期 the column is coerced to float64 with
`None` becoming `NaN` — and `nan is not None` is `True`.  Only when every
row's 当期 is absent does the column stay object-typed and the entry remain
a genuine `None`.  So for an existing row the check passes exactly when
some row (this one or any other) has a current value. -/
def currentNotNone (rows : List SummaryRow) (r : SummaryRow) : Bool :=
  rows.any (fun x => x.current.isSome) || r.current.isSome

/-- The anchor loop: for each anchor element in order, take the first
summary row with that 要素名; if it exists and its 当期 entry is not
`None` — which by the column coercion above holds for EVERY existing row
once any row has a current value, including rows whose 当期 is `NaN` — use
its 当期/前期 as the revenue denominators and stop, even when 当期 is zero
or `NaN`.  The inner `Option ℚ` is the selected 当期 entry itself (`none`
is a selected `NaN` denominator); an outer `none` means no anchor was
selected at all (`sales_current is None`). -/
def anchorSearch : List Str → List SummaryRow → Option (Option ℚ × Option ℚ)
  | [], _ => none
  | s :: ss, rows =>
    match rows.find? (fun r => r.element = s) with
    | some r =>
      if currentNotNone rows r then some (r.current, r.prior)
      else anchorSearch ss rows
    | none => anchorSearch ss rows

/-- One output row of `calculate_profit_margins` (指標 / 当期% / 前期% / 差分pt). -/
structure MarginRow where
  metric : Str
  curr_pct : Option ℚ
  prev_pct : Option ℚ
  diff_pt : Option ℚ
deriving DecidableEq

def margin_items : List (Str × Str) :=
  [("売上総利益率".data, "GrossProfit".data),
   ("営業利益率".data, "OperatingIncome".data),
   ("経常利益率".data, "OrdinaryIncome".data),
   ("当期純利益率".data, "ProfitLoss".data),
   ("親会社帰属純利益率".data, "ProfitLossAttributableToOwnersOfParent".data)]

/-- Python `round(q, 2)`: round half to even at two decimal places,
modelled on exact rationals. -/
def rintHalfEven (q : ℚ) : ℤ :=
  if q - ⌊q⌋ < 1 / 2 then ⌊q⌋
  else if (1 : ℚ) / 2 < q - ⌊q⌋ then ⌊q⌋ + 1
  else if ⌊q⌋ % 2 = 0 then ⌊q⌋ else ⌊q⌋ + 1

def round2 (q : ℚ) : ℚ := (rintHalfEven (q * 100) : ℚ) / 100

/-- The per-metric body of the margin loop: skip the metric when its row is
absent; 当期% = 当期 / revenue 当期 × 100, where an absent (`NaN`) operand
propagates to an absent (`NaN`) result; 前期% additionally requires a
truthy, non-zero prior revenue; the point difference needs both
percentages (`NaN` again propagating); the three stored fields are
`round(x, 2)` of the exact quotients, and `round(nan, 2)` stays `NaN`. -/
def mkMarginRow (rows : List SummaryRow) (sc : Option ℚ) (sp : Option ℚ)
    (item : Str × Str) : Option MarginRow :=
  match rows.find? (fun r => r.element = item.2) with
  | none => none
  | some r =>
    let currM :=
      match r.current, sc with
      | some c, some s => some (c / s * 100)
      | _, _ => none
    let prevM :=
      match r.prior, sp with
      | some p, some s => if s ≠ 0 then some (p / s * 100) else none
      | _, _ => none
    let diff :=
      match currM, prevM with
      | some a, some b => some (a - b)
      | _, _ => none
    some ⟨item.1, currM.map round2, prevM.map round2, diff.map round2⟩

/-- `mkMarginRow` without the display rounding (used to state exactly where
rounding happens). -/
def mkMarginRowExact (rows : List SummaryRow) (sc : Option ℚ) (sp : Option ℚ)
    (item : Str × Str) : Option MarginRow :=
  match rows.find? (fun r => r.element = item.2) with
  | none => none
  | some r =>
    let currM :=
      match r.current, sc with
      | some c, some s => some (c / s * 100)
      | _, _ => none
    let prevM :=
      match r.prior, sp with
      | some p, some s => if s ≠ 0 then some (p / s * 100) else none
      | _, _ => none
    let diff :=
      match currM, prevM with
      | some a, some b => some (a - b)
      | _, _ => none
    some ⟨item.1, currM, prevM, diff⟩

/-- `calculate_profit_margins`: abort with an empty result when the summary
is empty, when no anchor was selected (`sales_current is None`), or when
the selected anchor's 当期 is the number zero (`sales_current == 0` —
false for `NaN`, so a selected `NaN` denominator proceeds and produces
`NaN`-valued margin rows); otherwise emit one row per tracked metric whose
summary row exists. -/
def calculate_profit_margins (rows : List SummaryRow) : List MarginRow :=
  if rows.isEmpty then []
  else
    match anchorSearch anchorOrder rows with
    | none => []
    | some (sc, sp) =>
      if sc = some 0 then [] else margin_items.filterMap (mkMarginRow rows sc sp)

/-- The margin computation with the final `round(x, 2)` calls removed. -/
def calculate_profit_margins_exact (rows : List SummaryRow) : List MarginRow :=
  if rows.isEmpty then []
  else
    match anchorSearch anchorOrder rows with
    | none => []
    | some (sc, sp) =>
      if sc = some 0 then [] else margin_items.filterMap (mkMarginRowExact rows sc sp)

/-- Apply the display rounding to the three numeric fields of a margin row. -/
def roundMarginRow (m : MarginRow) : MarginRow :=
  ⟨m.metric, m.curr_pct.map round2, m.prev_pct.map round2, m.diff_pt.map round2⟩

/-- The anchor selection as the specification words it ("locate the first
row among `anchor_search_order` that has a non-null, non-zero current
value"): an anchor row whose current value is zero is passed over in
favour of the next anchor.  Stated only to be compared with the source's
`anchorSearch`. -/
def anchorSearchSpec : List Str → List SummaryRow → Option (ℚ × Option ℚ)
  | [], _ => none
  | s :: ss, rows =>
    match rows.find? (fun r => r.element = s) with
    | some r =>
      match r.current with
      | some c => if c ≠ 0 then some (c, r.prior) else anchorSearchSpec ss rows
      | none => anchorSearchSpec ss rows
    | none => anchorSearchSpec ss rows

/-! ## Helper lemmas -/

theorem foldl_pick_mem (es : List ZipEntry) (e : ZipEntry) :
    es.foldl (fun b x => if b.size < x.size then x else b) e ∈ e :: es := by
  induction es generalizing e with
  | nil => simp
  | cons x xs ih =>
    have h := ih (if e.size < x.size then x else e)
    rcases List.mem_cons.mp h with h1 | h1
    · rw [List.foldl_cons, h1]; split <;> simp
    · simp [List.foldl_cons, List.mem_cons.mpr (Or.inr (List.mem_cons.mpr (Or.inr h1)))]

theorem foldl_pick_le (es : List ZipEntry) : ∀ e a : ZipEntry, a ∈ e :: es →
    a.size ≤ (es.foldl (fun b x => if b.size < x.size then x else b) e).size := by
  induction es with
  | nil => intro e a ha; simp at ha; simp [ha]
  | cons x xs ih =>
    intro e a ha
    have step : ∀ b : ZipEntry, b ∈ [e, x] →
        b.size ≤ (if e.size < x.size then x else e).size := by
      intro b hb
      rcases List.mem_cons.mp hb with h1 | h1
      · subst h1; split <;> omega
      · simp at h1; subst h1; split <;> omega
    have tail := ih (if e.size < x.size then x else e)
    rcases List.mem_cons.mp ha with h1 | h1
    · subst h1
      calc a.size ≤ (if a.size < x.size then x else a).size := step a (by simp)
        _ ≤ _ := tail _ (List.mem_cons.mpr (Or.inl rfl))
    · rcases List.mem_cons.mp h1 with h2 | h2
      · subst h2
        calc a.size ≤ (if e.size < a.size then a else e).size := step a (by simp)
          _ ≤ _ := tail _ (List.mem_cons.mpr (Or.inl rfl))
      · exact tail a (List.mem_cons.mpr (Or.inr h2))

theorem selectLargest_spec (l : List ZipEntry) (r : ZipEntry)
    (h : selectLargest l = some r) : r ∈ l ∧ ∀ a ∈ l, a.size ≤ r.size := by
  cases l with
  | nil => simp [selectLargest] at h
  | cons e es =>
    simp only [selectLargest, Option.some.injEq] at h
    subst h
    exact ⟨foldl_pick_mem es e, fun a ha => foldl_pick_le es e a ha⟩

theorem selectLargest_eq_none (l : List ZipEntry) :
    selectLargest l = none ↔ l = [] := by
  cases l <;> simp [selectLargest]

/-! ## C1 -/

/-- C1 (counterexample).  The claim reads the categories off the spec's
selection policy: the summary category is "entries whose path contains the
summary marker" and such an entry must win over any attachment-category
entry.  The code tests `'attachment' in lower` before `'summary' in lower`,
so an inline entry containing both markers lands in the attachment
category: here `a/attachment_summary-ixbrl.htm` (5 bytes) contains the
summary marker, yet the locator returns the larger attachment-only entry
`a/attachment/big-ixbrl.htm`. -/
theorem C1_counterexample :
    find_xbrl_instance_in_zip
      [⟨"a/attachment_summary-ixbrl.htm".data, 5⟩,
       ⟨"a/attachment/big-ixbrl.htm".data, 10⟩] =
      some ⟨"a/attachment/big-ixbrl.htm".data, 10⟩ ∧
    hasSub (lowerS "a/attachment_summary-ixbrl.htm".data) ("summary".data) = true ∧
    isInlineDoc ⟨"a/attachment_summary-ixbrl.htm".data, 5⟩ = true ∧
    isDirEntry ⟨"a/attachment_summary-ixbrl.htm".data, 5⟩ = false ∧
    hasSub (lowerS "a/attachment/big-ixbrl.htm".data) ("summary".data) = false := by
  decide

/-- C1 (amended).  With the categories as the code builds them (an inline
entry containing the attachment marker is attachment-categorised even when
it also contains the summary marker; summary category = contains the
summary marker and not the attachment marker), the locator prefers the
summary category, then the attachment category, then plain-instance
entries, picks the largest of the selected category, prefers summary over
attachment regardless of sizes, and never selects a directory entry. -/
theorem C1_selection_policy (es : List ZipEntry) :
    (∀ r, selectLargest (summaryList es) = some r →
      find_xbrl_instance_in_zip es = some r ∧ r ∈ summaryList es ∧
        ∀ a ∈ summaryList es, a.size ≤ r.size) ∧
    (summaryList es = [] → ∀ r, selectLargest (attachmentList es) = some r →
      find_xbrl_instance_in_zip es = some r ∧ r ∈ attachmentList es ∧
        ∀ a ∈ attachmentList es, a.size ≤ r.size) ∧
    (summaryList es = [] → attachmentList es = [] →
      ∀ r, selectLargest (xbrlList es) = some r →
        find_xbrl_instance_in_zip es = some r ∧ r ∈ xbrlList es ∧
          ∀ a ∈ xbrlList es, a.size ≤ r.size) ∧
    (summaryList es ≠ [] →
      ∃ r, find_xbrl_instance_in_zip es = some r ∧ r ∈ summaryList es) ∧
    (∀ r, find_xbrl_instance_in_zip es = some r → isDirEntry r = false) := by
  refine ⟨?_, ?_, ?_, ?_, ?_⟩
  · intro r hr
    refine ⟨?_, (selectLargest_spec _ _ hr).1, (selectLargest_spec _ _ hr).2⟩
    unfold find_xbrl_instance_in_zip
    rw [hr]
  · intro hS r hr
    have hSn : selectLargest (summaryList es) = none := by
      rw [selectLargest_eq_none]; exact hS
    refine ⟨?_, (selectLargest_spec _ _ hr).1, (selectLargest_spec _ _ hr).2⟩
    unfold find_xbrl_instance_in_zip
    rw [hSn, hr]
  · intro hS hA r hr
    have hSn : selectLargest (summaryList es) = none := by
      rw [selectLargest_eq_none]; exact hS
    have hAn : selectLargest (attachmentList es) = none := by
      rw [selectLargest_eq_none]; exact hA
    refine ⟨?_, (selectLargest_spec _ _ hr).1, (selectLargest_spec _ _ hr).2⟩
    unfold find_xbrl_instance_in_zip
    rw [hSn, hAn, hr]
  · intro hS
    cases hsel : selectLargest (summaryList es) with
    | none => exact absurd ((selectLargest_eq_none _).mp hsel) hS
    | some r =>
      refine ⟨r, ?_, (selectLargest_spec _ _ hsel).1⟩
      unfold find_xbrl_instance_in_zip
      rw [hsel]
  · intro r hr
    unfold find_xbrl_instance_in_zip at hr
    cases hsel : selectLargest (summaryList es) with
    | some s =>
      rw [hsel] at hr
      injection hr with hr'
      subst hr'
      have hm := (selectLargest_spec _ _ hsel).1
      have := (List.mem_filter.mp hm).2
      simp only [inSummaryCat, Bool.and_eq_true, Bool.not_eq_true'] at this
      exact this.1.1.1
    | none =>
      rw [hsel] at hr
      cases hsel2 : selectLargest (attachmentList es) with
      | some s =>
        rw [hsel2] at hr
        injection hr with hr'
        subst hr'
        have hm := (selectLargest_spec _ _ hsel2).1
        have := (List.mem_filter.mp hm).2
        simp only [inAttachmentCat, Bool.and_eq_true, Bool.not_eq_true'] at this
        exact this.1.1
      | none =>
        rw [hsel2] at hr
        have hm := (selectLargest_spec _ _ hr).1
        have := (List.mem_filter.mp hm).2
        simp only [inXbrlCat, Bool.and_eq_true, Bool.not_eq_true'] at this
        exact this.1.1

/-- C1 witness: the spec's own end-to-end scenario — an 800-byte summary
inline document wins over a 50000-byte attachment inline document. -/
theorem C1_selection_policy_witness :
    selectLargest (summaryList
      [⟨"XBRLData/Summary/report-ixbrl.htm".data, 800⟩,
       ⟨"XBRLData/Attachment/details-ixbrl.htm".data, 50000⟩]) =
      some ⟨"XBRLData/Summary/report-ixbrl.htm".data, 800⟩ ∧
    (find_xbrl_instance_in_zip
      [⟨"XBRLData/Summary/report-ixbrl.htm".data, 800⟩,
       ⟨"XBRLData/Attachment/details-ixbrl.htm".data, 50000⟩] =
      some ⟨"XBRLData/Summary/report-ixbrl.htm".data, 800⟩ ∧
    ⟨"XBRLData/Summary/report-ixbrl.htm".data, 800⟩ ∈ summaryList
      [⟨"XBRLData/Summary/report-ixbrl.htm".data, 800⟩,
       ⟨"XBRLData/Attachment/details-ixbrl.htm".data, 50000⟩] ∧
    ∀ a ∈ summaryList
      [⟨"XBRLData/Summary/report-ixbrl.htm".data, 800⟩,
       ⟨"XBRLData/Attachment/details-ixbrl.htm".data, 50000⟩],
      a.size ≤ (800 : ℕ)) :=
  ⟨by decide, (C1_selection_policy _).1 _ (by decide)⟩

/-! ## C2 -/

/-- C2 (counterexample).  `"PriorQuarterDuration"` lower-cases to a string
containing `"priorquarter"`, yet `classify_period` returns the Prior role
(前期), not the PriorQuarter role (前四半期): the id starts with
`"prior"`, so the earlier prior rule fires first. -/
theorem C2_counterexample :
    hasSub (lowerS "PriorQuarterDuration".data) ("priorquarter".data) = true ∧
    classify_period "PriorQuarterDuration".data [] = "前期".data ∧
    classify_period "PriorQuarterDuration".data [] ≠ "前四半期".data := by
  decide

/-- C2 (amended).  A context id containing `"priorquarter"` or
`"prior1quarter"` is classified PriorQuarter only when no earlier rule
fires: it must not contain `"forecast"`/`"nextaccumulated"`, must not
start with `"prior"`, and must not contain
`"prioryear"`/`"prior1year"`/`"prioraccumulated"`. -/
theorem C2_priorquarter_rule (context_ref : Str) (ctxs : List (Str × Str))
    (h1 : (hasSub (lowerS context_ref) ("priorquarter".data) ||
      hasSub (lowerS context_ref) ("prior1quarter".data)) = true)
    (h2 : hasSub (lowerS context_ref) ("forecast".data) = false)
    (h3 : hasSub (lowerS context_ref) ("nextaccumulated".data) = false)
    (h4 : startsWithS (lowerS context_ref) ("prior".data) = false)
    (h5 : hasSub (lowerS context_ref) ("prioryear".data) = false)
    (h6 : hasSub (lowerS context_ref) ("prior1year".data) = false)
    (h7 : hasSub (lowerS context_ref) ("prioraccumulated".data) = false) :
    classify_period context_ref ctxs = "前四半期".data := by
  simp [classify_period, h1, h2, h3, h4, h5, h6, h7]

/-- C2 witness: `"AccumulatedPriorQuarterDuration"` contains
`"priorquarter"`, triggers none of the earlier rules, and is classified
PriorQuarter. -/
theorem C2_priorquarter_rule_witness :
    (hasSub (lowerS "AccumulatedPriorQuarterDuration".data) ("priorquarter".data) ||
      hasSub (lowerS "AccumulatedPriorQuarterDuration".data) ("prior1quarter".data)) = true ∧
    classify_period "AccumulatedPriorQuarterDuration".data [] = "前四半期".data :=
  ⟨by decide, C2_priorquarter_rule _ _ (by decide) (by decide) (by decide)
    (by decide) (by decide) (by decide) (by decide)⟩

/-! ## C10 -/

/-- C10.  An inline document carrying neither marker falls into the `else`
branch and is appended to the attachment list; when the summary category
is empty the locator therefore returns a maximal-size member of the
attachment category — an inline document, never a plain `.xbrl` entry. -/
theorem C10_unmarked_inline (es : List ZipEntry) (e : ZipEntry)
    (h1 : isDirEntry e = false) (h2 : isInlineDoc e = true)
    (h3 : hasSub (lowerS e.name) ("attachment".data) = false)
    (h4 : hasSub (lowerS e.name) ("summary".data) = false)
    (h5 : e ∈ es) (h6 : summaryList es = []) :
    e ∈ attachmentList es ∧
    ∃ r, find_xbrl_instance_in_zip es = some r ∧ r ∈ attachmentList es ∧
      isInlineDoc r = true ∧ inXbrlCat r = false ∧
      ∀ a ∈ attachmentList es, a.size ≤ r.size := by
  have hmem : e ∈ attachmentList es := by
    apply List.mem_filter.mpr
    refine ⟨h5, ?_⟩
    simp [inAttachmentCat, h1, h2, h3, h4]
  refine ⟨hmem, ?_⟩
  cases hsel : selectLargest (attachmentList es) with
  | none =>
    rw [selectLargest_eq_none] at hsel
    rw [hsel] at hmem
    simp at hmem
  | some r =>
    have hspec := selectLargest_spec _ _ hsel
    have hcat : inAttachmentCat r = true := (List.mem_filter.mp hspec.1).2
    have hinline : isInlineDoc r = true := by
      simp only [inAttachmentCat, Bool.and_eq_true] at hcat
      exact hcat.1.2
    refine ⟨r, ?_, hspec.1, hinline, ?_, hspec.2⟩
    · unfold find_xbrl_instance_in_zip
      rw [(selectLargest_eq_none _).mpr h6, hsel]
    · simp [inXbrlCat, hinline]

/-- C10 witness: an unmarked inline document beats a larger `.xbrl` entry. -/
theorem C10_unmarked_inline_witness :
    ⟨"report-ixbrl.htm".data, 100⟩ ∈ attachmentList
      [⟨"report-ixbrl.htm".data, 100⟩, ⟨"instance.xbrl".data, 999⟩] ∧
    ∃ r, find_xbrl_instance_in_zip
        [⟨"report-ixbrl.htm".data, 100⟩, ⟨"instance.xbrl".data, 999⟩] = some r ∧
      r ∈ attachmentList
        [⟨"report-ixbrl.htm".data, 100⟩, ⟨"instance.xbrl".data, 999⟩] ∧
      isInlineDoc r = true ∧ inXbrlCat r = false ∧
      ∀ a ∈ attachmentList
        [⟨"report-ixbrl.htm".data, 100⟩, ⟨"instance.xbrl".data, 999⟩],
        a.size ≤ r.size :=
  C10_unmarked_inline _ _ (by decide) (by decide) (by decide) (by decide)
    (by decide) (by decide)

theorem cur_not_prior (pt : Str) (h : currentFamily pt = true) :
    priorFamily pt = false := by
  simp only [currentFamily, Bool.or_eq_true, decide_eq_true_eq] at h
  rcases h with (h | h) | h <;> subst h <;> decide

theorem uniqueAux_append_mem (x : Str) : ∀ (l seen : List Str),
    (x ∈ l ∨ x ∈ seen) → uniqueAux (l ++ [x]) seen = uniqueAux l seen := by
  intro l
  induction l with
  | nil =>
    intro seen h
    rcases h with h | h
    · simp at h
    · simp [uniqueAux, h]
  | cons e t ih =>
    intro seen h
    simp only [List.cons_append, uniqueAux]
    by_cases he : e ∈ seen
    · rw [if_pos he, if_pos he]
      apply ih
      rcases h with h | h
      · rcases List.mem_cons.mp h with h1 | h1
        · exact Or.inr (h1 ▸ he)
        · exact Or.inl h1
      · exact Or.inr h
    · rw [if_neg he, if_neg he]
      congr 1
      apply ih
      rcases h with h | h
      · rcases List.mem_cons.mp h with h1 | h1
        · exact Or.inr (by rw [h1]; exact List.mem_cons_self e seen)
        · exact Or.inl h1
      · exact Or.inr (List.mem_cons_of_mem e h)


theorem mkSummaryRow_some (lm : Str → Option Str) (numeric : List FactRec) (e : Str)
    (r : SummaryRow) (h : mkSummaryRow lm numeric e = some r) :
    r.element = e ∧ r.label = (lm e).getD e ∧
    r.current = ((numeric.filter (fun f => f.element = e)).find?
      (fun f => currentFamily f.period_type)).bind (·.value) ∧
    r.prior = ((numeric.filter (fun f => f.element = e)).find?
      (fun f => priorFamily f.period_type)).bind (·.value) ∧
    ((∃ c p, r.current = some c ∧ r.prior = some p ∧ p ≠ 0 ∧
        r.change = some (c - p) ∧ r.change_rate = some ((c - p) / |p|)) ∨
      (r.change = none ∧ r.change_rate = none ∧
        (r.current = none ∨ r.prior = none ∨ r.prior = some 0))) := by
  simp only [mkSummaryRow] at h
  cases hA : ((numeric.filter (fun f => f.element = e)).find?
      (fun f => currentFamily f.period_type)).bind (·.value) with
  | some c =>
    cases hB : ((numeric.filter (fun f => f.element = e)).find?
        (fun f => priorFamily f.period_type)).bind (·.value) with
    | some p =>
      rw [hA, hB] at h
      dsimp only at h
      by_cases hp : p = 0
      · rw [if_neg (by simp [hp])] at h
        injection h with h'
        subst h'
        simp [hA, hB, hp]
      · rw [if_pos hp] at h
        injection h with h'
        subst h'
        exact ⟨rfl, rfl, rfl, rfl, Or.inl ⟨c, p, rfl, rfl, hp, rfl, rfl⟩⟩
    | none =>
      rw [hA, hB] at h
      dsimp only at h
      injection h with h'
      subst h'
      simp [hA, hB]
  | none =>
    cases hB : ((numeric.filter (fun f => f.element = e)).find?
        (fun f => priorFamily f.period_type)).bind (·.value) with
    | some p =>
      rw [hA, hB] at h
      dsimp only at h
      injection h with h'
      subst h'
      simp [hA, hB]
    | none =>
      rw [hA, hB] at h
      dsimp only at h
      exact absurd h (by simp)

/-! ## C3 -/

/-- C3.  (1) Every summary row's 当期/前期 values come from the first
numeric fact of that element in document order with a current-family /
prior-family role (later facts mapping to the same slot are ignored);
(2) appending a duplicate current-family numeric fact for an element that
already has one leaves the summary unchanged; (3) Current 100 / Prior 80
yields one row with change 20 and rate 0.25; (4) a lone Current fact
yields a row with change and rate both absent. -/
theorem C3_first_wins :
    (∀ (lm : Str → Option Str) (facts : List FactRec) (r : SummaryRow),
      r ∈ build_financial_summary lm facts →
      r.current = (((facts.filter (fun f => f.value.isSome)).filter
          (fun f => f.element = r.element)).find?
          (fun f => currentFamily f.period_type)).bind (·.value) ∧
      r.prior = (((facts.filter (fun f => f.value.isSome)).filter
          (fun f => f.element = r.element)).find?
          (fun f => priorFamily f.period_type)).bind (·.value)) ∧
    (∀ (lm : Str → Option Str) (fs : List FactRec) (extra : FactRec),
      extra.value.isSome = true →
      currentFamily extra.period_type = true →
      (∃ f ∈ fs, f.element = extra.element ∧ f.value.isSome = true ∧
        currentFamily f.period_type = true) →
      build_financial_summary lm (fs ++ [extra]) = build_financial_summary lm fs) ∧
    (build_financial_summary (fun _ => none)
      [⟨"NetSales".data, [], [], "c1".data, "当期".data, some 100, "100".data, [], []⟩,
       ⟨"NetSales".data, [], [], "c2".data, "前期".data, some 80, "80".data, [], []⟩] =
      [⟨"NetSales".data, "NetSales".data, some 100, some 80, some 20, some (1/4)⟩]) ∧
    (build_financial_summary (fun _ => none)
      [⟨"NetSales".data, [], [], "c1".data, "当期".data, some 100, "100".data, [], []⟩] =
      [⟨"NetSales".data, "NetSales".data, some 100, none, none, none⟩]) := by
  refine ⟨?_, ?_, ?_, ?_⟩
  · intro lm facts r hr
    simp only [build_financial_summary] at hr
    obtain ⟨e, he, hmk⟩ := List.mem_filterMap.mp hr
    have hprops := mkSummaryRow_some lm _ e r hmk
    rw [hprops.1]
    exact ⟨hprops.2.2.1, hprops.2.2.2.1⟩
  · intro lm fs extra hval hcf hex
    obtain ⟨f, hf_mem, hf_el, hf_val, hf_cur⟩ := hex
    have hfmem_num : f ∈ fs.filter (fun g => g.value.isSome) :=
      List.mem_filter.mpr ⟨hf_mem, hf_val⟩
    have hnum : (fs ++ [extra]).filter (fun g => g.value.isSome) =
        fs.filter (fun g => g.value.isSome) ++ [extra] := by
      rw [List.filter_append]
      simp [List.filter, hval]
    have hel_mem : extra.element ∈ (fs.filter (fun g => g.value.isSome)).map (·.element) := by
      rw [← hf_el]
      exact List.mem_map_of_mem _ hfmem_num
    have huniq : uniqueElems (((fs.filter (fun g => g.value.isSome)) ++ [extra]).map (·.element)) =
        uniqueElems ((fs.filter (fun g => g.value.isSome)).map (·.element)) := by
      rw [List.map_append]
      simp only [List.map]
      exact uniqueAux_append_mem _ _ _ (Or.inl hel_mem)
    have hfun : mkSummaryRow lm ((fs.filter (fun g => g.value.isSome)) ++ [extra]) =
        mkSummaryRow lm (fs.filter (fun g => g.value.isSome)) := by
      funext e
      by_cases he : extra.element = e
      · have hgroup : ((fs.filter (fun g => g.value.isSome)) ++ [extra]).filter
            (fun g => g.element = e) =
            ((fs.filter (fun g => g.value.isSome)).filter (fun g => g.element = e)) ++ [extra] := by
          rw [List.filter_append]
          simp [List.filter, he]
        have hgmem : f ∈ (fs.filter (fun g => g.value.isSome)).filter (fun g => g.element = e) :=
          List.mem_filter.mpr ⟨hfmem_num, by simp [hf_el, he]⟩
        have hcur_some : (((fs.filter (fun g => g.value.isSome)).filter
            (fun g => g.element = e)).find? (fun g => currentFamily g.period_type)).isSome =
            true :=
          List.find?_isSome.mpr ⟨f, hgmem, hf_cur⟩
        obtain ⟨v, hv⟩ := Option.isSome_iff_exists.mp hcur_some
        have hfc : ((((fs.filter (fun g => g.value.isSome)).filter (fun g => g.element = e)) ++
            [extra]).find? (fun g => currentFamily g.period_type)) =
            ((fs.filter (fun g => g.value.isSome)).filter (fun g => g.element = e)).find?
              (fun g => currentFamily g.period_type) := by
          rw [List.find?_append, hv]
          rfl
        have hfp : ((((fs.filter (fun g => g.value.isSome)).filter (fun g => g.element = e)) ++
            [extra]).find? (fun g => priorFamily g.period_type)) =
            ((fs.filter (fun g => g.value.isSome)).filter (fun g => g.element = e)).find?
              (fun g => priorFamily g.period_type) := by
          rw [List.find?_append]
          have hnone : [extra].find? (fun g => priorFamily g.period_type) = none := by
            simp [List.find?, cur_not_prior _ hcf]
          rw [hnone]
          cases ((fs.filter (fun g => g.value.isSome)).filter (fun g => g.element = e)).find?
            (fun g => priorFamily g.period_type) <;> rfl
        simp only [mkSummaryRow]
        rw [hgroup, hfc, hfp]
      · have hgroup : ((fs.filter (fun g => g.value.isSome)) ++ [extra]).filter
            (fun g => g.element = e) =
            (fs.filter (fun g => g.value.isSome)).filter (fun g => g.element = e) := by
          rw [List.filter_append]
          simp [List.filter, he]
        simp only [mkSummaryRow]
        rw [hgroup]
    simp only [build_financial_summary]
    rw [hnum, huniq, hfun]
  · simp [build_financial_summary, mkSummaryRow, uniqueElems, uniqueAux, List.filter,
      List.find?, currentFamily, priorFamily]
    norm_num
  · simp [build_financial_summary, mkSummaryRow, uniqueElems, uniqueAux, List.filter,
      List.find?, currentFamily, priorFamily]

/-- C3 witness: a later duplicate Current fact (value 999) for an element
that already has a Current fact (value 100) leaves the summary unchanged. -/
theorem C3_first_wins_witness :
    (⟨"NetSales".data, [], [], "c9".data, "当期".data, some 999, "999".data, [], []⟩ :
      FactRec).value.isSome = true ∧
    build_financial_summary (fun _ => none)
      ([⟨"NetSales".data, [], [], "c1".data, "当期".data, some 100, "100".data, [], []⟩] ++
        [⟨"NetSales".data, [], [], "c9".data, "当期".data, some 999, "999".data, [], []⟩]) =
      build_financial_summary (fun _ => none)
        [⟨"NetSales".data, [], [], "c1".data, "当期".data, some 100, "100".data, [], []⟩] :=
  ⟨by decide, C3_first_wins.2.1 _ _ _ (by decide) (by decide)
    ⟨_, List.mem_singleton.mpr rfl, by decide⟩⟩

theorem insertAsc_perm (x : SummaryRow) : ∀ l : List SummaryRow,
    List.Perm (insertAsc x l) (x :: l)
  | [] => List.Perm.refl _
  | y :: ys => by
    simp only [insertAsc]
    split
    · exact (((insertAsc_perm x ys).cons y).trans (List.Perm.swap x y ys))
    · exact List.Perm.refl _

theorem sortAscAbs_perm : ∀ l : List SummaryRow, List.Perm (sortAscAbs l) l
  | [] => List.Perm.refl _
  | x :: xs => (insertAsc_perm x (sortAscAbs xs)).trans ((sortAscAbs_perm xs).cons x)

theorem insertAsc_sorted (x : SummaryRow) : ∀ l : List SummaryRow,
    l.Pairwise (fun a b => absRate a ≤ absRate b) →
    (insertAsc x l).Pairwise (fun a b => absRate a ≤ absRate b) := by
  intro l
  induction l with
  | nil => intro _; simp [insertAsc]
  | cons y ys ih =>
    intro h
    have hy := List.pairwise_cons.mp h
    simp only [insertAsc]
    split
    next hlt =>
      refine List.pairwise_cons.mpr ⟨?_, ih hy.2⟩
      intro a ha
      rcases List.mem_cons.mp ((insertAsc_perm x ys).mem_iff.mp ha) with h1 | h1
      · subst h1; exact le_of_lt hlt
      · exact hy.1 a h1
    next hge =>
      have hxy : absRate x ≤ absRate y := le_of_not_lt hge
      refine List.pairwise_cons.mpr ⟨?_, h⟩
      intro a ha
      rcases List.mem_cons.mp ha with h1 | h1
      · subst h1; exact hxy
      · exact hxy.trans (hy.1 a h1)

theorem sortAscAbs_sorted : ∀ l : List SummaryRow,
    (sortAscAbs l).Pairwise (fun a b => absRate a ≤ absRate b)
  | [] => by simp [sortAscAbs]
  | x :: xs => insertAsc_sorted x _ (sortAscAbs_sorted xs)

theorem insertAsc_filter_eq (x : SummaryRow) (q : ℚ) : ∀ l : List SummaryRow,
    (insertAsc x l).filter (fun r => decide (absRate r = q)) =
      if absRate x = q then x :: l.filter (fun r => decide (absRate r = q))
      else l.filter (fun r => decide (absRate r = q)) := by
  intro l
  induction l with
  | nil =>
    simp only [insertAsc, List.filter]
    by_cases hx : absRate x = q <;> simp [hx]
  | cons y ys ih =>
    simp only [insertAsc]
    split
    next hlt =>
      by_cases hx : absRate x = q
      · have hy : ¬(absRate y = q) := by rw [← hx]; exact ne_of_lt hlt
        simp [List.filter_cons, hy, ih, hx]
      · simp [List.filter_cons, ih, hx]
    next hge =>
      by_cases hx : absRate x = q <;> simp [List.filter_cons, hx]

theorem sortAscAbs_filter_eq (q : ℚ) : ∀ l : List SummaryRow,
    (sortAscAbs l).filter (fun r => decide (absRate r = q)) =
      l.filter (fun r => decide (absRate r = q)) := by
  intro l
  induction l with
  | nil => rfl
  | cons x xs ih =>
    simp only [sortAscAbs]
    rw [insertAsc_filter_eq]
    by_cases hx : absRate x = q <;> simp [List.filter_cons, hx, ih]

/-! ## C5 -/

/-- C5 (counterexample).  Two rows with equal absolute rate (2 and −2) are
returned in the REVERSE of their original order: pandas implements the
descending sort by reversing an ascending argsort, so ties are not broken
by the original grouping order as the claim states. -/
theorem C5_counterexample :
    absRate ⟨"A".data, [], some 1, some 1, some 2, some 2⟩ =
      absRate ⟨"B".data, [], some 1, some 1, some (-2), some (-2)⟩ ∧
    analyze_significant_changes
      [⟨"A".data, [], some 1, some 1, some 2, some 2⟩,
       ⟨"B".data, [], some 1, some 1, some (-2), some (-2)⟩] 1 =
      [⟨"B".data, [], some 1, some 1, some (-2), some (-2)⟩,
       ⟨"A".data, [], some 1, some 1, some 2, some 2⟩] ∧
    (⟨"A".data, [], some 1, some 1, some 2, some 2⟩ : SummaryRow) ≠
      ⟨"B".data, [], some 1, some 1, some (-2), some (-2)⟩ := by
  decide

/-- C5 (amended).  The detector returns exactly the rows with a present
rate whose absolute value is ≥ the threshold (inclusive boundary), sorted
by descending absolute rate; rows of equal absolute rate appear in the
REVERSE of their original order (a stable ascending sort followed by
reversal), not in the original order.  The concrete conjunct shows the
inclusive boundary: at threshold 0.20 a rate of exactly 0.20 is kept and
0.19999 is dropped. -/
theorem C5_detect_sorted (rows : List SummaryRow) (t : ℚ) :
    List.Perm (analyze_significant_changes rows t)
      ((rows.filter (fun r => r.change_rate.isSome)).filter (fun r => t ≤ absRate r)) ∧
    (analyze_significant_changes rows t).Pairwise (fun a b => absRate b ≤ absRate a) ∧
    (∀ q : ℚ, (analyze_significant_changes rows t).filter (fun r => decide (absRate r = q)) =
      (((rows.filter (fun r => r.change_rate.isSome)).filter
        (fun r => t ≤ absRate r)).filter (fun r => decide (absRate r = q))).reverse) ∧
    analyze_significant_changes
      [⟨"E".data, [], some 1, some 1, some 0, some (1/5)⟩,
       ⟨"F".data, [], some 1, some 1, some 0, some (19999/100000)⟩] (1/5) =
      [⟨"E".data, [], some 1, some 1, some 0, some (1/5)⟩] := by
  refine ⟨?_, ?_, ?_, ?_⟩
  · exact (List.reverse_perm _).trans (sortAscAbs_perm _)
  · simp only [analyze_significant_changes]
    rw [List.pairwise_reverse]
    exact sortAscAbs_sorted _
  · intro q
    simp only [analyze_significant_changes]
    rw [List.filter_reverse, sortAscAbs_filter_eq]
  · have h1 : |(1:ℚ)/5| = 1/5 := by rw [abs_of_nonneg]; norm_num
    have h2 : |(19999:ℚ)/100000| = 19999/100000 := by rw [abs_of_nonneg]; norm_num
    norm_num [analyze_significant_changes, absRate, sortAscAbs, insertAsc,
      List.filter_cons, List.filter_nil, h1, h2]

/-! ## C8 -/

/-- C8 (counterexample).  With a Current value 100 and a Prior value 0 for
the same element, the emitted row has BOTH values present and yet its
absolute change is absent: the code computes 増減額 only under the same
`prior != 0` guard as the rate, so a zero prior suppresses the absolute
change too, contrary to the claim. -/
theorem C8_counterexample :
    build_financial_summary (fun _ => none)
      [⟨"NetSales".data, [], [], "c1".data, "当期".data, some 100, "100".data, [], []⟩,
       ⟨"NetSales".data, [], [], "c2".data, "前期".data, some 0, "0".data, [], []⟩] =
      [⟨"NetSales".data, "NetSales".data, some 100, some 0, none, none⟩] := by
  simp [build_financial_summary, mkSummaryRow, uniqueElems, uniqueAux, List.filter,
    List.find?, currentFamily, priorFamily]

/-- C8 (amended).  In every comparison row the absolute change and the
relative change are present under exactly the same condition: both values
present AND prior ≠ 0.  A zero prior suppresses both. -/
theorem C8_change_guard (lm : Str → Option Str) (facts : List FactRec)
    (r : SummaryRow) (hr : r ∈ build_financial_summary lm facts) :
    (r.change.isSome = true ↔
      r.current.isSome = true ∧ r.prior.isSome = true ∧ r.prior ≠ some 0) ∧
    (r.change_rate.isSome = true ↔
      r.current.isSome = true ∧ r.prior.isSome = true ∧ r.prior ≠ some 0) := by
  simp only [build_financial_summary] at hr
  obtain ⟨e, he, hmk⟩ := List.mem_filterMap.mp hr
  have hprops := mkSummaryRow_some lm _ e r hmk
  rcases hprops.2.2.2.2 with ⟨c, p, hc, hp, hpne, hch, hrate⟩ | ⟨hch, hrate, hdeg⟩
  · rw [hc, hp, hch, hrate]
    simp [hpne]
  · rw [hch, hrate]
    rcases hdeg with h1 | h1 | h1 <;> simp [h1]

/-- C8 witness: a row with Current 100 and Prior 80 has its change present,
and the guard equivalence holds for it. -/
theorem C8_change_guard_witness :
    (⟨"NetSales".data, "NetSales".data, some 100, some 80, some 20, some (1/4)⟩ :
      SummaryRow) ∈ build_financial_summary (fun _ => none)
      [⟨"NetSales".data, [], [], "c1".data, "当期".data, some 100, "100".data, [], []⟩,
       ⟨"NetSales".data, [], [], "c2".data, "前期".data, some 80, "80".data, [], []⟩] ∧
    ((some (20:ℚ)).isSome = true ↔
      (some (100:ℚ)).isSome = true ∧ (some (80:ℚ)).isSome = true ∧
        some (80:ℚ) ≠ some 0) := by
  have hm : (⟨"NetSales".data, "NetSales".data, some 100, some 80, some 20, some (1/4)⟩ :
      SummaryRow) ∈ build_financial_summary (fun _ => none)
      [⟨"NetSales".data, [], [], "c1".data, "当期".data, some 100, "100".data, [], []⟩,
       ⟨"NetSales".data, [], [], "c2".data, "前期".data, some 80, "80".data, [], []⟩] := by
    have hbuild : build_financial_summary (fun _ => none)
        [⟨"NetSales".data, [], [], "c1".data, "当期".data, some 100, "100".data, [], []⟩,
         ⟨"NetSales".data, [], [], "c2".data, "前期".data, some 80, "80".data, [], []⟩] =
        [⟨"NetSales".data, "NetSales".data, some 100, some 80, some 20, some (1/4)⟩] := by
      simp [build_financial_summary, mkSummaryRow, uniqueElems, uniqueAux, List.filter,
        List.find?, currentFamily, priorFamily]
      norm_num
    rw [hbuild]
    exact List.mem_singleton.mpr rfl
  exact ⟨hm, (C8_change_guard _ _ _ hm).1⟩

/-! ## C4 -/

/-- C4 (counterexample).  With NetSales current = 0 and Revenue
current = 100 (and a GrossProfit row present), the spec-worded selection
(`anchorSearchSpec`) passes over the zero anchor and finds Revenue, but
the code's anchor loop stops at NetSales because its current entry is not
`None`, then aborts on the zero and returns an empty margin list. -/
theorem C4_counterexample :
    calculate_profit_margins
      [⟨"NetSales".data, [], some 0, some 50, none, none⟩,
       ⟨"Revenue".data, [], some 100, some 80, none, none⟩,
       ⟨"GrossProfit".data, [], some 30, some 20, none, none⟩] = [] ∧
    anchorSearch anchorOrder
      [⟨"NetSales".data, [], some 0, some 50, none, none⟩,
       ⟨"Revenue".data, [], some 100, some 80, none, none⟩,
       ⟨"GrossProfit".data, [], some 30, some 20, none, none⟩] =
      some (some 0, some 50) ∧
    anchorSearchSpec anchorOrder
      [⟨"NetSales".data, [], some 0, some 50, none, none⟩,
       ⟨"Revenue".data, [], some 100, some 80, none, none⟩,
       ⟨"GrossProfit".data, [], some 30, some 20, none, none⟩] = some (100, some 80) := by
  decide

theorem anchorSearch_of_no_current (rows : List SummaryRow)
    (hAny : rows.any (fun x => x.current.isSome) = false) :
    ∀ l : List Str, anchorSearch l rows = none := by
  intro l
  induction l with
  | nil => rfl
  | cons s ss ih =>
    cases hf : rows.find? (fun r => r.element = s) with
    | none => simp [anchorSearch, hf, ih]
    | some r =>
      have hr : r ∈ rows := List.mem_of_find?_eq_some hf
      have hrc : r.current.isSome = false := by
        have := List.any_eq_false.mp hAny r hr
        simpa using this
      simp [anchorSearch, hf, currentNotNone, hAny, hrc, ih]

/-- C4 (amended).  The anchor loop stops at the FIRST anchor element whose
summary row exists, as soon as any summary row carries a current value: the
frame's 当期 column is then float64, a missing current reads as `NaN`, and
`nan is not None` holds, so even an anchor whose current is missing is
selected rather than passed over.  Only a missing anchor row — or a summary
in which no row at all has a current value, leaving genuine `None`s — moves
the search along.  A selected zero current, or no selected anchor, yields
an empty margin list rather than an error; a selected `NaN` current yields
margin rows whose current-percentage and point-difference are `NaN`
(absent). -/
theorem C4_anchor_selection (rows : List SummaryRow) :
    (∀ sp, anchorSearch anchorOrder rows = some (some 0, sp) →
      calculate_profit_margins rows = []) ∧
    (anchorSearch anchorOrder rows = none → calculate_profit_margins rows = []) ∧
    (∀ (s : Str) (ss : List Str) (r : SummaryRow),
      rows.any (fun x => x.current.isSome) = true →
      rows.find? (fun x => x.element = s) = some r →
      anchorSearch (s :: ss) rows = some (r.current, r.prior)) ∧
    (∀ (s : Str) (ss : List Str),
      rows.find? (fun x => x.element = s) = none →
      anchorSearch (s :: ss) rows = anchorSearch ss rows) ∧
    (rows.any (fun x => x.current.isSome) = false →
      anchorSearch anchorOrder rows = none) ∧
    (∀ sp, anchorSearch anchorOrder rows = some (none, sp) →
      ∀ m ∈ calculate_profit_margins rows, m.curr_pct = none ∧ m.diff_pt = none) := by
  refine ⟨?_, ?_, ?_, ?_, ?_, ?_⟩
  · intro sp h
    by_cases he : rows.isEmpty <;> simp [calculate_profit_margins, he, h]
  · intro h
    by_cases he : rows.isEmpty <;> simp [calculate_profit_margins, he, h]
  · intro s ss r hAny h1
    simp [anchorSearch, h1, currentNotNone, hAny]
  · intro s ss h1
    simp [anchorSearch, h1]
  · intro hAny
    exact anchorSearch_of_no_current rows hAny anchorOrder
  · intro sp hA m hm
    by_cases he : rows.isEmpty
    · simp [calculate_profit_margins, he] at hm
    · simp only [calculate_profit_margins, he, Bool.false_eq_true, if_false, hA] at hm
      rw [if_neg (by simp)] at hm
      obtain ⟨it, _, hmk⟩ := List.mem_filterMap.mp hm
      simp only [mkMarginRow] at hmk
      cases hf : rows.find? (fun r => r.element = it.2) with
      | none =>
        rw [hf] at hmk
        exact absurd hmk (by simp)
      | some r =>
        rw [hf] at hmk
        dsimp only at hmk
        cases hc : r.current with
        | none =>
          rw [hc] at hmk
          dsimp only at hmk
          injection hmk with hmk
          subst hmk
          exact ⟨rfl, rfl⟩
        | some c =>
          rw [hc] at hmk
          dsimp only at hmk
          injection hmk with hmk
          subst hmk
          exact ⟨rfl, rfl⟩

/-- C4 witness: at a summary whose NetSales row has a missing (NaN)
current while Revenue has 100, the loop still selects the NetSales anchor
(it does not fall through to Revenue), and the zero-anchor abort at the
counterexample's input. -/
theorem C4_anchor_selection_witness :
    ([⟨"NetSales".data, [], none, some 50, none, none⟩,
      ⟨"Revenue".data, [], some 100, some 80, none, none⟩] :
        List SummaryRow).any (fun x => x.current.isSome) = true ∧
    anchorSearch ("NetSales".data :: ["Revenue".data, "OperatingRevenue1".data])
      [⟨"NetSales".data, [], none, some 50, none, none⟩,
       ⟨"Revenue".data, [], some 100, some 80, none, none⟩] =
      some (none, some 50) ∧
    calculate_profit_margins
      [⟨"NetSales".data, [], some 0, some 50, none, none⟩,
       ⟨"Revenue".data, [], some 100, some 80, none, none⟩,
       ⟨"GrossProfit".data, [], some 30, some 20, none, none⟩] = [] := by
  refine ⟨by decide, ?_, (C4_anchor_selection _).1 (some 50) (by decide)⟩
  have h := (C4_anchor_selection
    [⟨"NetSales".data, [], none, some 50, none, none⟩,
     ⟨"Revenue".data, [], some 100, some 80, none, none⟩]).2.2.1
    ("NetSales".data) ["Revenue".data, "OperatingRevenue1".data]
    ⟨"NetSales".data, [], none, some 50, none, none⟩ (by decide) (by decide)
  exact h

/-! ## C9 -/

set_option maxRecDepth 4000 in
/-- C9 (counterexample).  With revenue 3 and gross profit 1 the exact
margin is 100/3 %, but the engine stores `round(100/3, 2) = 33.33`:
`calculate_profit_margins` applies two-decimal display rounding, so its
output percentages do not equal the exact quotients. -/
theorem C9_counterexample :
    calculate_profit_margins
      [⟨"NetSales".data, [], some 3, some 3, none, none⟩,
       ⟨"GrossProfit".data, [], some 1, some 1, none, none⟩] =
      [⟨"売上総利益率".data, some (3333/100), some (3333/100), some 0⟩] ∧
    (3333/100 : ℚ) ≠ (1:ℚ)/3 * 100 := by
  constructor
  · have heq : ((1:ℚ)/3 * 100 * 100) = 10000/3 := by norm_num
    have hfloor : ⌊(10000:ℚ)/3⌋ = 3333 := by
      rw [Int.floor_eq_iff]
      norm_num
    have hr2 : round2 ((1:ℚ) / 3 * 100) = 3333/100 := by
      simp only [round2, rintHalfEven, heq, hfloor]
      norm_num
    simp [calculate_profit_margins, anchorSearch, anchorOrder, margin_items, mkMarginRow,
      currentNotNone]
    constructor
    · have h3 : (3:ℚ)⁻¹ * 100 = 1/3*100 := by norm_num
      rw [h3, hr2]
    · norm_num [round2, rintHalfEven]
  · norm_num

/-- C9 (amended).  Facts, comparison rows and the significant-change list
carry no rounding: a row's change and rate, when present, are the exact
difference and exact quotient, and the detector returns input rows
unmodified.  The margin computation however is exactly the unrounded
computation followed by `round(x, 2)` on its three numeric fields. -/
theorem C9_rounding_scope :
    (∀ rows, calculate_profit_margins rows =
      (calculate_profit_margins_exact rows).map roundMarginRow) ∧
    (∀ (lm : Str → Option Str) (facts : List FactRec) (r : SummaryRow),
      r ∈ build_financial_summary lm facts →
      (r.change = none ∧ r.change_rate = none) ∨
      (∃ c p, r.current = some c ∧ r.prior = some p ∧
        r.change = some (c - p) ∧ r.change_rate = some ((c - p) / |p|))) ∧
    (∀ (rows : List SummaryRow) (t : ℚ) (r : SummaryRow),
      r ∈ analyze_significant_changes rows t → r ∈ rows) := by
  refine ⟨?_, ?_, ?_⟩
  · intro rows
    by_cases he : rows.isEmpty
    · simp [calculate_profit_margins, calculate_profit_margins_exact, he]
    · simp only [calculate_profit_margins, calculate_profit_margins_exact, he,
        Bool.false_eq_true, if_false]
      cases hA : anchorSearch anchorOrder rows with
      | none => rfl
      | some scp =>
        obtain ⟨sc, sp⟩ := scp
        dsimp only
        by_cases hsc : sc = some 0
        · simp [hsc]
        · rw [if_neg hsc, if_neg hsc]
          rw [List.map_filterMap]
          apply List.filterMap_congr
          intro it _
          cases hf : rows.find? (fun r => r.element = it.2) <;>
            simp [mkMarginRow, mkMarginRowExact, roundMarginRow, hf]
  · intro lm facts r hr
    simp only [build_financial_summary] at hr
    obtain ⟨e, he, hmk⟩ := List.mem_filterMap.mp hr
    have hprops := mkSummaryRow_some lm _ e r hmk
    rcases hprops.2.2.2.2 with ⟨c, p, hc, hp, _, hch, hrate⟩ | ⟨hch, hrate, _⟩
    · exact Or.inr ⟨c, p, hc, hp, hch, hrate⟩
    · exact Or.inl ⟨hch, hrate⟩
  · intro rows t r hr
    simp only [analyze_significant_changes] at hr
    rw [List.mem_reverse] at hr
    have hr2 := (sortAscAbs_perm _).mem_iff.mp hr
    exact (List.mem_filter.mp (List.mem_filter.mp hr2).1).1

/-- C9 witness: a row returned by the detector is one of the input rows,
unmodified. -/
theorem C9_rounding_scope_witness :
    (⟨"B".data, [], some 1, some 1, some (-2), some (-2)⟩ : SummaryRow) ∈
      analyze_significant_changes
        [⟨"A".data, [], some 1, some 1, some 2, some 2⟩,
         ⟨"B".data, [], some 1, some 1, some (-2), some (-2)⟩] 1 ∧
    (⟨"B".data, [], some 1, some 1, some (-2), some (-2)⟩ : SummaryRow) ∈
      [⟨"A".data, [], some 1, some 1, some 2, some 2⟩,
       ⟨"B".data, [], some 1, some 1, some (-2), some (-2)⟩] :=
  ⟨by decide, C9_rounding_scope.2.2 _ 1 _ (by decide)⟩

/-! ## C7 -/

/-- C7 (counterexample).  A nonfraction fact whose text `"abc"` fails the
numeric decode is NOT dropped from the result list: it is retained with an
absent value (the `except` branch leaves `value = None` and the fact is
still appended).  Only placeholder dashes and empty texts are dropped. -/
theorem C7_counterexample :
    parse_ixbrl (fun _ => none) (fun _ => none) []
      [⟨"ix:nonfraction".data, "t:Foo".data, "CtxX".data, "abc".data, [], "0".data, [], []⟩] =
      [⟨"Foo".data, [], "t".data, "CtxX".data, "CtxX".data, none, "abc".data, [], []⟩] ∧
    decodeNumeric "abc".data [] "0".data = .failed := by
  decide

/-- C7 (amended).  (1) A nonfraction fact whose text fails the float parse
(without being a placeholder dash) is retained with an absent value and
the scan continues; (2) a fact whose cleaned text is a placeholder dash is
dropped and the scan continues; (3) the context table plays no role in a
fact's processing: a fact with an unresolvable context id is retained
exactly as it would be with any table, its role computed from the id
string alone.  Extraction never aborts: it is a total per-element map. -/
theorem C7_fact_retention :
    (∀ (tm lm : Str → Option Str) (ctxs : List (Str × Str)) (el : IXElem)
      (rest : List IXElem),
      el.tag = "ix:nonfraction".data → el.nameAttr ≠ [] → el.contextref ≠ [] →
      el.text ≠ [] → decodeNumeric el.text el.sign el.scale = .failed →
      ∃ f, processElem tm lm ctxs el = some f ∧ f.value = none ∧
        parse_ixbrl tm lm ctxs (el :: rest) = f :: parse_ixbrl tm lm ctxs rest) ∧
    (∀ (tm lm : Str → Option Str) (ctxs : List (Str × Str)) (el : IXElem)
      (rest : List IXElem),
      el.tag = "ix:nonfraction".data → el.nameAttr ≠ [] → el.contextref ≠ [] →
      el.text ≠ [] → decodeNumeric el.text el.sign el.scale = .skip →
      parse_ixbrl tm lm ctxs (el :: rest) = parse_ixbrl tm lm ctxs rest) ∧
    (∀ (tm lm : Str → Option Str) (ctxs ctxs' : List (Str × Str))
      (els : List IXElem),
      parse_ixbrl tm lm ctxs els = parse_ixbrl tm lm ctxs' els) := by
  refine ⟨?_, ?_, ?_⟩
  · intro tm lm ctxs el rest htag hname hctx htext hdec
    have hp : processElem tm lm ctxs el = some
        ⟨(tm (splitOnColon el.nameAttr).2).getD (splitOnColon el.nameAttr).2,
         (lm ((tm (splitOnColon el.nameAttr).2).getD (splitOnColon el.nameAttr).2)).getD
           ((lm (splitOnColon el.nameAttr).2).getD []),
         (splitOnColon el.nameAttr).1, el.contextref,
         classify_period el.contextref ctxs, none, el.text, el.unitref, el.decimals⟩ := by
      simp [processElem, htag, hname, hctx, htext, hdec]
    exact ⟨_, hp, rfl, by simp [parse_ixbrl, List.filterMap_cons, hp]⟩
  · intro tm lm ctxs el rest htag hname hctx htext hdec
    have hp : processElem tm lm ctxs el = none := by
      simp [processElem, htag, hname, hctx, htext, hdec]
    simp [parse_ixbrl, List.filterMap_cons, hp]
  · intro tm lm ctxs ctxs' els
    have hfun : processElem tm lm ctxs = processElem tm lm ctxs' := by
      funext el
      simp [processElem, classify_period]
    simp [parse_ixbrl, hfun]

/-- C7 witness: the amended retention behaviour at the counterexample's
fact. -/
theorem C7_fact_retention_witness :
    decodeNumeric "abc".data [] "0".data = .failed ∧
    ∃ f, processElem (fun _ => none) (fun _ => none) []
        ⟨"ix:nonfraction".data, "t:Foo".data, "CtxX".data, "abc".data, [], "0".data, [], []⟩ =
        some f ∧ f.value = none ∧
      parse_ixbrl (fun _ => none) (fun _ => none) []
          [⟨"ix:nonfraction".data, "t:Foo".data, "CtxX".data, "abc".data, [], "0".data, [], []⟩] =
        f :: parse_ixbrl (fun _ => none) (fun _ => none) [] [] :=
  ⟨by decide, C7_fact_retention.1 _ _ _ _ _ (by decide) (by decide) (by decide)
    (by decide) (by decide)⟩

theorem digitVal?_fwNorm (c : Char) : digitVal? (fwNorm c) = digitVal? c := by
  unfold fwNorm
  split_ifs with h1 h2 h3 h4 h5 h6 h7 h8 h9 h10 <;>
    first | rfl | (subst_vars; decide)

theorem fwNorm_of_nondigit (c : Char) (h : digitVal? c = none) : fwNorm c = c := by
  unfold fwNorm
  split_ifs with h1 h2 h3 h4 h5 h6 h7 h8 h9 h10 <;>
    first | rfl | (subst_vars; exact absurd h (by decide))

theorem fwNorm_eq_char (c d : Char) (hd : digitVal? d = none) :
    (fwNorm c = d) = (c = d) := by
  apply propext
  constructor
  · intro h
    cases hdc : digitVal? c with
    | none => rw [fwNorm_of_nondigit c hdc] at h; exact h
    | some n =>
      exfalso
      have h1 := digitVal?_fwNorm c
      rw [h, hd, hdc] at h1
      exact Option.noConfusion h1
  · intro h
    subst h
    exact fwNorm_of_nondigit c hd

theorem tail_map_fw (f : Char → Char) (l : List Char) :
    (l.map f).tail = l.tail.map f := by
  cases l <;> rfl

theorem isEmpty_map_fw (f : Char → Char) (l : List Char) :
    (l.map f).isEmpty = l.isEmpty := by
  cases l <;> rfl

theorem map_dropLast_fw (f : Char → Char) : ∀ l : List Char,
    (l.map f).dropLast = l.dropLast.map f
  | [] => rfl
  | [_] => rfl
  | c :: d :: t => by
    simp only [List.map_cons, List.dropLast_cons₂]
    rw [← List.map_cons f d t, map_dropLast_fw f (d :: t)]

theorem digitsVal_map_fw (l : List Char) : digitsVal (l.map fwNorm) = digitsVal l := by
  unfold digitsVal
  rw [List.foldl_map]
  congr 1
  funext a c
  rw [digitVal?_fwNorm]

theorem allDigits_map_fw (l : List Char) : allDigits (l.map fwNorm) = allDigits l := by
  unfold allDigits
  rw [List.all_map]
  congr 1
  funext c
  simp [Function.comp, digitVal?_fwNorm]

theorem optmap_fwNorm_eq (o : Option Char) (d : Char) (hd : digitVal? d = none) :
    (o.map fwNorm = some d) = (o = some d) := by
  apply propext
  cases o with
  | none => simp
  | some c =>
    show (some (fwNorm c) = some d) ↔ (some c = some d)
    rw [Option.some.injEq, Option.some.injEq, fwNorm_eq_char c d hd]

theorem takeWhile_digit_map_fw (l : List Char) :
    (l.map fwNorm).takeWhile (fun c => (digitVal? c).isSome) =
      (l.takeWhile (fun c => (digitVal? c).isSome)).map fwNorm := by
  rw [List.takeWhile_map]
  have hp : ((fun c => (digitVal? c).isSome) ∘ fwNorm) =
      (fun c => (digitVal? c).isSome) := by
    funext c
    simp [Function.comp, digitVal?_fwNorm]
  rw [hp]

theorem pyFloatUnsigned_map_fw (l : List Char) :
    pyFloatUnsigned (l.map fwNorm) = pyFloatUnsigned l := by
  unfold pyFloatUnsigned
  dsimp only
  simp only [takeWhile_digit_map_fw, List.length_map, ← List.map_drop, isEmpty_map_fw,
    digitsVal_map_fw, List.head?_map, tail_map_fw, allDigits_map_fw]
  simp only [optmap_fwNorm_eq _ '.' (by decide)]

theorem pyFloat_map_fw (l : List Char) : pyFloat (l.map fwNorm) = pyFloat l := by
  unfold pyFloat
  simp only [List.head?_map, tail_map_fw, pyFloatUnsigned_map_fw,
    optmap_fwNorm_eq _ '-' (by decide), optmap_fwNorm_eq _ '+' (by decide)]

theorem stripSeps_map_fw (l : List Char) :
    stripSeps (l.map fwNorm) = (stripSeps l).map fwNorm := by
  unfold stripSeps
  rw [List.filter_map]
  have hp : ((fun c => !(c = ',' || c = '，' || c = ' ' || c = '　')) ∘ fwNorm) =
      (fun c => !(c = ',' || c = '，' || c = ' ' || c = '　')) := by
    funext c
    simp only [Function.comp]
    simp only [fwNorm_eq_char c ',' (by decide), fwNorm_eq_char c '，' (by decide),
      fwNorm_eq_char c ' ' (by decide), fwNorm_eq_char c '　' (by decide)]
  rw [hp]

theorem stripSeps_idem (l : List Char) : stripSeps (stripSeps l) = stripSeps l := by
  unfold stripSeps
  rw [List.filter_filter]
  congr 1
  funext c
  cases h : (decide (c = ',') || decide (c = '，') || decide (c = ' ') || decide (c = '　')) <;>
    simp [h]

theorem triToMinus_map_fw (l : List Char) :
    triToMinus (l.map fwNorm) = (triToMinus l).map fwNorm := by
  unfold triToMinus
  rw [List.map_map, List.map_map]
  congr 1
  funext c
  simp only [Function.comp]
  by_cases h : c = '△' ∨ c = '▲'
  · rcases h with h | h <;> subst h <;> decide
  · push_neg at h
    have h1 : (fwNorm c = '△') = (c = '△') := fwNorm_eq_char c '△' (by decide)
    have h2 : (fwNorm c = '▲') = (c = '▲') := fwNorm_eq_char c '▲' (by decide)
    simp only [h1, h2, h.1, h.2]
    rw [if_neg (by simp [h.1, h.2]), if_neg (by simp [h.1, h.2])]

theorem parenToMinus_map_fw (l : List Char) :
    parenToMinus (l.map fwNorm) = (parenToMinus l).map fwNorm := by
  unfold parenToMinus
  simp only [List.head?_map, List.getLast?_map, optmap_fwNorm_eq _ '(' (by decide),
    optmap_fwNorm_eq _ ')' (by decide)]
  by_cases h : l.head? = some '(' ∧ l.getLast? = some ')'
  · rw [if_pos h, if_pos h]
    simp only [List.map_cons, ← List.map_drop, map_dropLast_fw]
    rw [show fwNorm '-' = '-' from by decide]
  · rw [if_neg h, if_neg h]

theorem cleanText_map_fw (l : List Char) :
    cleanText ((stripSeps l).map fwNorm) = (cleanText l).map fwNorm := by
  unfold cleanText
  rw [stripSeps_map_fw, stripSeps_idem, triToMinus_map_fw, parenToMinus_map_fw]

theorem dash_map_fw (l : List Char) :
    ((l.map fwNorm) ∈ dashSet) = (l ∈ dashSet) := by
  apply propext
  cases l with
  | nil => simp [dashSet]
  | cons c t =>
    cases t with
    | nil =>
      simp only [dashSet, List.map_cons, List.map_nil, List.mem_cons, List.mem_singleton,
        List.cons.injEq, and_true, List.not_mem_nil, or_false, List.cons_ne_nil,
        List.mem_nil_iff]
      rw [fwNorm_eq_char c '-' (by decide), fwNorm_eq_char c '－' (by decide),
        fwNorm_eq_char c '―' (by decide), fwNorm_eq_char c '—' (by decide)]
    | cons d t2 => simp [dashSet]

theorem pow10_nonneg (sc : ℤ) : 0 ≤ pow10 sc := by
  unfold pow10
  split <;> positivity

theorem decodeNumeric_fw (t sgn sc : Str) :
    decodeNumeric t sgn sc = decodeNumeric (toHalfNoSep t) sgn sc := by
  unfold decodeNumeric toHalfNoSep
  dsimp only
  rw [cleanText_map_fw]
  simp only [dash_map_fw, pyFloat_map_fw]

example : decodeNumeric "△1,234".data [] "0".data = .val (-1234) := by decide

theorem decodeNumeric_sign_neg (t sc : Str) (q : ℚ)
    (h : decodeNumeric t "-".data sc = .val q) : q ≤ 0 := by
  unfold decodeNumeric at h
  by_cases hd : cleanText t ∈ dashSet
  · rw [if_pos hd] at h
    exact absurd h (by simp)
  · rw [if_neg hd] at h
    cases hf : pyFloat (cleanText t) with
    | none =>
      rw [hf] at h
      exact absurd h (by simp)
    | some v =>
      rw [hf] at h
      dsimp only at h
      rw [if_pos rfl] at h
      cases hi : pyInt sc with
      | none =>
        rw [hi] at h
        dsimp only at h
        injection h with h'
        rw [← h']
        simp [abs_nonneg]
      | some sci =>
        rw [hi] at h
        dsimp only at h
        by_cases hz : sci = 0
        · rw [if_neg (by simp [hz])] at h
          injection h with h'
          rw [← h']
          simp [abs_nonneg]
        · rw [if_pos hz] at h
          injection h with h'
          rw [← h']
          have h1 : -|v| ≤ 0 := by simp [abs_nonneg]
          have h2 : 0 ≤ pow10 sci := pow10_nonneg sci
          nlinarith

/-! ## C6 -/

/-- C6.  The numeric decode normalises before parsing: decoding any text
equals decoding its half-width separator-free equivalent (full-width
digits mapped to ASCII, comma/full-width-comma/space/ideographic-space
removed); parenthesised and triangle-marked texts decode to negatives;
`scale="6"` multiplies by 10⁶; `sign="-"` forces the value non-positive
regardless of the text (concretely, `"100"` decodes to −100). -/
theorem C6_numeric_decode :
    (∀ t sgn sc : Str, decodeNumeric t sgn sc = decodeNumeric (toHalfNoSep t) sgn sc) ∧
    decodeNumeric "(1,234)".data [] "0".data = .val (-1234) ∧
    decodeNumeric "△1,234".data [] "0".data = .val (-1234) ∧
    decodeNumeric "▲1,234".data [] "0".data = .val (-1234) ∧
    decodeNumeric "5".data [] "6".data = .val 5000000 ∧
    decodeNumeric "100".data "-".data "0".data = .val (-100) ∧
    (∀ (t sc : Str) (q : ℚ), decodeNumeric t "-".data sc = .val q → q ≤ 0) := by
  refine ⟨decodeNumeric_fw, by decide, by decide, by decide, ?_, by decide,
    fun t sc q h => decodeNumeric_sign_neg t sc q h⟩
  have h : decodeNumeric "5".data [] "6".data = .val ((5:ℚ) * pow10 6) := by
    simp [decodeNumeric, cleanText, parenToMinus, triToMinus, stripSeps, dashSet,
      pyFloat, pyFloatUnsigned, pyInt, allDigits, digitsVal, digitVal?]
  rw [h]
  norm_num [pow10, show Int.toNat 6 = 6 from rfl]

/-- C6 witness: a fact with `sign="-"` and text `"100"` decodes to −100,
which is non-positive. -/
theorem C6_numeric_decode_witness :
    decodeNumeric "100".data "-".data "0".data = .val (-100) ∧ ((-100 : ℚ) ≤ 0) :=
  ⟨by decide, C6_numeric_decode.2.2.2.2.2.2 "100".data "0".data (-100) (by decide)⟩
